import Mathlib

/-!
Verification of the viltrum-fitness client-side modules against their
natural-language specification.

The development shallowly embeds three JavaScript source files:
* `src/js/ajax-navigation.js` — the AJAX navigation layer (`shouldUseAjax`,
  `navigateAjax` and its navigation lock);
* the instant-navigation overlay script — its click-classification handler;
* the workout history / favorites / exercise-weights module with its
  Google-Sheets cloud sync (`syncWeightsToCloud`, `loadWeightsFromCloud`,
  `addWorkoutToHistory`, `toggleFavorite`, `getExerciseWeight`).

JavaScript strings are modelled as Lean `String`s, with the JS string
operations (`startsWith`, `endsWith`, `includes`, single-occurrence
`replace`, `indexOf`) re-implemented on the underlying character lists so
that they can be reasoned about by structural induction.  JS objects used
as string-keyed maps are modelled as insertion-ordered association lists
(`List (String × String)`), which matches the enumeration-order semantics
of JS object literals and spreads.  Browser I/O (fetch outcomes, JSON
parsing, `DOMParser`, `window.location.origin`) is passed in explicitly as
data or as function parameters, so every embedded operation is a pure,
executable Lean function.
-/

namespace Viltrum

/-! ## JS string primitives (on character lists) -/

/-- `startsWithL s p` : the character list `p` is a leading segment of `s`
(JS `String.prototype.startsWith`). -/
def startsWithL : List Char → List Char → Bool
  | _, [] => true
  | [], _ :: _ => false
  | c :: s, p :: ps => c == p && startsWithL s ps

/-- `containsSub s pat` : `pat` occurs contiguously somewhere in `s`
(JS `String.prototype.includes`). -/
def containsSub : List Char → List Char → Bool
  | [], pat => pat.isEmpty
  | c :: rest, pat => startsWithL (c :: rest) pat || containsSub rest pat

/-- Remove the first occurrence of `pat` from `s`; if `pat` does not occur,
return `s` unchanged.  This is JS `String.prototype.replace(pat, '')` with a
plain-string pattern, which substitutes only the first occurrence. -/
def replaceFirstL : List Char → List Char → List Char
  | s, [] => s
  | [], _ :: _ => []
  | c :: rest, p :: ps =>
    if startsWithL (c :: rest) (p :: ps) then (c :: rest).drop (p :: ps).length
    else c :: replaceFirstL rest (p :: ps)

/-- Everything after the first occurrence of the character `q`, if any. -/
def afterChar : List Char → Char → Option (List Char)
  | [], _ => none
  | c :: rest, q => if c == q then some rest else afterChar rest q

/-- JS `href.startsWith(p)` on Lean strings. -/
def jsStartsWith (s p : String) : Bool := startsWithL s.data p.data

/-- JS `s.endsWith(p)` on Lean strings. -/
def jsEndsWith (s p : String) : Bool := startsWithL s.data.reverse p.data.reverse

/-- JS `s.includes(p)` on Lean strings. -/
def jsIncludes (s p : String) : Bool := containsSub s.data p.data

/-- JS `s.replace(pat, '')` (first occurrence only) on Lean strings. -/
def jsReplaceFirst (s pat : String) : String := ⟨replaceFirstL s.data pat.data⟩

/-- The query-string part of a href: everything after the first `?`, if the
href contains one. -/
def queryPart (href : String) : Option String :=
  (afterChar href.data '?').map String.mk

/-- JS `Array.prototype.indexOf` on a list of strings: index of the first
occurrence, `none` standing for `-1`. -/
def jsIndexOf : List String → String → Option Nat
  | [], _ => none
  | x :: xs, w => if x == w then some 0 else (jsIndexOf xs w).map (· + 1)

/-- First-occurrence lookup in a JS object modelled as an
insertion-ordered association list (`obj[k]`, `undefined` as `none`). -/
def jsLookup : List (String × String) → String → Option String
  | [], _ => none
  | p :: rest, k => if p.1 == k then some p.2 else jsLookup rest k

/-- JS `obj[k] = v` on an insertion-ordered association list: an existing
key keeps its position and gets the new value, a fresh key is appended at
the end (JS objects never hold a key twice, so updating the first
occurrence is exact). -/
def objSet : List (String × String) → String → String → List (String × String)
  | [], k, v => [(k, v)]
  | p :: rest, k, v => if p.1 == k then (k, v) :: rest else p :: objSet rest k v

/-- JS object spread `\x7b ...base, ...upd \x7d` / `Object.assign(base, upd)`:
fold every pair of `upd` into `base`, the update winning on key conflicts. -/
def objSpread (base upd : List (String × String)) : List (String × String) :=
  upd.foldl (fun acc kv => objSet acc kv.1 kv.2) base

/-- `Option` fallback, JS `a ?? b` on already-computed options. -/
def orO (a b : Option String) : Option String :=
  match a with
  | some v => some v
  | none => b

/-! ## The persisted client state

`localStorage` as the history / favorites / weights module uses it:
`viltrum_workout_history`, `viltrum_favorites`, `viltrum_exercise_weights`
and the `viltrum_weights_last_sync` timestamp. -/

/-- One workout-history record, as built by `addWorkoutToHistory`
(source `part_001`, lines 181–187). -/
structure Entry where
  id : Nat
  workoutName : String
  duration : Nat
  completedAt : String
  exerciseWeights : List (String × String)
deriving DecidableEq

/-- The localStorage keys owned by the module, with parsed contents. -/
structure Store where
  history : List Entry
  favorites : List String
  weights : List (String × String)
  weightsSynced : Option String
deriving DecidableEq

/-- The store of a fresh browser profile: every key absent, every read
defaulted. -/
def emptyStore : Store := ⟨[], [], [], none⟩

/-! ## Favorites (`toggleFavorite`, source `part_001` lines 296–315) -/

/-- `toggleFavorite(workoutName)`: look the name up with `indexOf`; if
absent (`-1`) push it and return `true`, otherwise `splice` out the found
index and return `false`.  The returned list is what the function persists
back to `viltrum_favorites`. -/
def toggleFavorite (workoutName : String) (favorites : List String) :
    Bool × List String :=
  match jsIndexOf favorites workoutName with
  | none => (true, favorites ++ [workoutName])
  | some i => (false, favorites.eraseIdx i)

theorem jsIndexOf_eq_none {favs : List String} {w : String} :
    jsIndexOf favs w = none ↔ w ∉ favs := by
  induction favs with
  | nil => simp [jsIndexOf]
  | cons x xs ih =>
    by_cases hx : x == w
    · simp [jsIndexOf, hx, eq_comm.mp (eq_of_beq hx)]
    · have hne : ¬(x = w) := fun h => hx (by simp [h])
      simp [jsIndexOf, hx, ih]
      exact fun _ h => hne h.symm

theorem jsIndexOf_eraseIdx {favs : List String} {w : String} {i : Nat}
    (h : jsIndexOf favs w = some i) : favs.eraseIdx i = favs.erase w := by
  induction favs generalizing i with
  | nil => simp [jsIndexOf] at h
  | cons x xs ih =>
    by_cases hx : x == w
    · simp [jsIndexOf, hx] at h
      subst h
      simp [List.eraseIdx, List.erase, hx]
    · simp [jsIndexOf, hx] at h
      obtain ⟨j, hj, hji⟩ := h
      subst hji
      simp [List.eraseIdx, List.erase, hx, ih hj]

theorem toggleFavorite_not_mem {w : String} {favs : List String} (h : w ∉ favs) :
    toggleFavorite w favs = (true, favs ++ [w]) := by
  simp [toggleFavorite, jsIndexOf_eq_none.mpr h]

theorem toggleFavorite_mem {w : String} {favs : List String} (h : w ∈ favs) :
    toggleFavorite w favs = (false, favs.erase w) := by
  have hnone : jsIndexOf favs w ≠ none := fun hn => (jsIndexOf_eq_none.mp hn) h
  obtain ⟨i, hi⟩ := Option.ne_none_iff_exists'.mp hnone
  simp [toggleFavorite, hi, jsIndexOf_eraseIdx hi]

/-- C6: `toggleFavorite w` on a favorites list not containing `w` returns
`true` and persists the previous list with `w` appended; on a list
containing `w` it returns `false` and persists the previous list with the
first occurrence of `w` removed.  In particular toggling "Leg Day" on an
empty list yields `(true, ["Leg Day"])` and toggling again yields
`(false, [])`. -/
theorem toggleFavorite_toggles (w : String) (favs : List String) :
    (w ∉ favs → toggleFavorite w favs = (true, favs ++ [w])) ∧
    (w ∈ favs → toggleFavorite w favs = (false, favs.erase w)) :=
  ⟨toggleFavorite_not_mem, toggleFavorite_mem⟩

/-- Witness for C6: the claim's own "Leg Day" scenario, obtained from the
theorem at concrete inputs. -/
theorem toggleFavorite_toggles_witness :
    toggleFavorite "Leg Day" [] = (true, ["Leg Day"]) ∧
    toggleFavorite "Leg Day" ["Leg Day"] = (false, []) :=
  ⟨(toggleFavorite_toggles "Leg Day" []).1 (by decide),
   (toggleFavorite_toggles "Leg Day" ["Leg Day"]).2 (by decide)⟩

/-- C8: the persisted favorites list never acquires duplicates: if the
stored list has no duplicate workout names, the list stored after
`toggleFavorite w` still has none (`w` is appended only when absent and
removed when present). -/
theorem toggleFavorite_nodup (w : String) (favs : List String)
    (h : favs.Nodup) : (toggleFavorite w favs).2.Nodup := by
  by_cases hmem : w ∈ favs
  · rw [toggleFavorite_mem hmem]
    exact h.erase w
  · rw [toggleFavorite_not_mem hmem]
    simp [List.nodup_append, h, hmem]

/-- Witness for C8: a concrete duplicate-free list stays duplicate-free. -/
theorem toggleFavorite_nodup_witness :
    (toggleFavorite "Leg Day" ["Push Day", "Pull Day"]).2.Nodup :=
  toggleFavorite_nodup "Leg Day" ["Push Day", "Pull Day"] (by decide)

/-! ## Workout history (`addWorkoutToHistory`, `part_001` lines 178–208) -/

/-- `addWorkoutToHistory(workoutName, duration, exerciseWeights)`: build an
entry from the call data plus the environment clock (`Date.now()` as `now`,
`new Date().toISOString()` as `isoNow`), `unshift` it onto the parsed
history, `splice(100)` if the result exceeds 100 entries, and persist.
Returns the entry together with the list persisted to
`viltrum_workout_history`.  (On non-empty `exerciseWeights` the source also
triggers `updateExerciseWeights`, which touches only the weights record,
modelled separately.) -/
def addWorkoutToHistory (now : Nat) (isoNow : String) (workoutName : String)
    (duration : Nat) (exerciseWeights : List (String × String))
    (history : List Entry) : Entry × List Entry :=
  let entry : Entry := ⟨now, workoutName, duration, isoNow, exerciseWeights⟩
  let unshifted := entry :: history
  let capped := if 100 < unshifted.length then unshifted.take 100 else unshifted
  (entry, capped)

/-- A sequence of successful `addWorkoutToHistory` calls starting from an
empty stored history; each list element carries one call's entry data. -/
def runHistory (calls : List Entry) : List Entry :=
  calls.foldl
    (fun h e =>
      (addWorkoutToHistory e.id e.completedAt e.workoutName e.duration
        e.exerciseWeights h).2) []

theorem addWorkoutToHistory_snd (now : Nat) (isoNow workoutName : String)
    (duration : Nat) (ws : List (String × String)) (h : List Entry) :
    (addWorkoutToHistory now isoNow workoutName duration ws h).2 =
      (Entry.mk now workoutName duration isoNow ws :: h).take 100 := by
  unfold addWorkoutToHistory
  by_cases hlen : 100 < (Entry.mk now workoutName duration isoNow ws :: h).length
  · simp [hlen]
  · simp only [hlen, if_false]
    exact (List.take_of_length_le (by omega)).symm

theorem take_append_take {α : Type} (xs ys : List α) (m n : Nat) (h : n ≤ m) :
    (xs ++ ys.take m).take n = (xs ++ ys).take n := by
  induction xs generalizing n with
  | nil => simp [List.take_take, Nat.min_eq_left h]
  | cons x xs ih =>
    cases n with
    | zero => simp
    | succ k =>
      simp only [List.cons_append, List.take_succ_cons]
      rw [ih k (le_trans (Nat.le_succ k) h)]

theorem runHistory_aux (es acc : List Entry) (hacc : acc.take 100 = acc) :
    List.foldl
      (fun h e =>
        (addWorkoutToHistory e.id e.completedAt e.workoutName e.duration
          e.exerciseWeights h).2) acc es = (es.reverse ++ acc).take 100 := by
  induction es generalizing acc with
  | nil => simp [hacc]
  | cons e es ih =>
    rw [List.foldl_cons, addWorkoutToHistory_snd]
    have hstep : (Entry.mk e.id e.workoutName e.duration e.completedAt
        e.exerciseWeights :: acc) = e :: acc := rfl
    rw [hstep, ih ((e :: acc).take 100) (by simp [List.take_take])]
    rw [take_append_take _ _ 100 100 (le_refl 100)]
    simp [List.append_assoc]

theorem runHistory_eq (es : List Entry) : runHistory es = es.reverse.take 100 := by
  unfold runHistory
  rw [runHistory_aux es [] rfl, List.append_nil]

/-- C5: a successful `addWorkoutToHistory` call stores the just-added entry
at index 0 and never lets the stored history exceed 100 entries; a
sequence of successful calls starting from an empty history stores the
calls newest-first truncated to 100; in particular after 101 calls the
stored length is exactly 100 and the most recent entry is first. -/
theorem history_newest_first_capped :
    (∀ (now : Nat) (isoNow workoutName : String) (duration : Nat)
       (ws : List (String × String)) (h : List Entry),
       (addWorkoutToHistory now isoNow workoutName duration ws h).2.length ≤ 100 ∧
       (addWorkoutToHistory now isoNow workoutName duration ws h).2.head? =
         some (Entry.mk now workoutName duration isoNow ws)) ∧
    (∀ es : List Entry, runHistory es = es.reverse.take 100) ∧
    (∀ es : List Entry, es.length = 101 →
       (runHistory es).length = 100 ∧ (runHistory es).head? = es.getLast?) := by
  refine ⟨fun now isoNow w d ws h => ?_, runHistory_eq, fun es h101 => ?_⟩
  · rw [addWorkoutToHistory_snd]
    constructor
    · simp [List.length_take]
    · rw [show (100 : Nat) = 99 + 1 from rfl, List.take_succ_cons]
      rfl
  · have hne : es.reverse ≠ [] := by
      intro hrev
      have := congrArg List.length hrev
      simp [h101] at this
    obtain ⟨b, t, hbt⟩ := List.exists_cons_of_ne_nil hne
    constructor
    · rw [runHistory_eq]
      simp [List.length_take, h101]
    · rw [runHistory_eq, ← List.head?_reverse, hbt,
        show (100 : Nat) = 99 + 1 from rfl, List.take_succ_cons]
      rfl

/-- Witness for C5: 101 identical calls starting from an empty history. -/
theorem history_newest_first_capped_witness :
    (runHistory (List.replicate 101 (Entry.mk 0 "Leg Day" 60 "2026-01-01" []))).length
        = 100 ∧
    (runHistory (List.replicate 101 (Entry.mk 0 "Leg Day" 60 "2026-01-01" []))).head?
        = (List.replicate 101 (Entry.mk 0 "Leg Day" 60 "2026-01-01" [])).getLast? :=
  history_newest_first_capped.2.2 _ (by simp)

/-! ## Exercise weights accessor (`getExerciseWeight`, `part_001` 348–351) -/

/-- `getExerciseWeight(exerciseName)`: `weights[exerciseName] || null`.
A missing key (`undefined`) and a falsy stored value (for string-valued
weights, exactly the empty string) both collapse to `null`. -/
def getExerciseWeight (weights : List (String × String)) (exerciseName : String) :
    Option String :=
  match jsLookup weights exerciseName with
  | none => none
  | some v => if v == "" then none else some v

/-- C10: `getExerciseWeight` returns null exactly when the exercise is
absent from the stored weights map or its stored value is falsy (the empty
string), so a caller cannot distinguish an empty stored weight from a
missing one. -/
theorem getExerciseWeight_falsy_none (ws : List (String × String)) (n : String) :
    getExerciseWeight ws n = none ↔
      (jsLookup ws n = none ∨ jsLookup ws n = some "") := by
  cases h : jsLookup ws n with
  | none => simp [getExerciseWeight, h]
  | some v =>
    by_cases hv : v = ""
    · subst hv; simp [getExerciseWeight, h]
    · simp [getExerciseWeight, h, hv]

/-- Witness for C10: an empty stored weight and a missing key are both
reported as null. -/
theorem getExerciseWeight_falsy_none_witness :
    getExerciseWeight [("Squat", "")] "Squat" = none ∧
    getExerciseWeight [("Squat", "")] "Bench" = none :=
  ⟨(getExerciseWeight_falsy_none [("Squat", "")] "Squat").mpr (Or.inr (by decide)),
   (getExerciseWeight_falsy_none [("Squat", "")] "Bench").mpr (Or.inl (by decide))⟩

/-! ## Object-spread lemmas for the weights merge -/

theorem objSet_lookup_self (o : List (String × String)) (k v : String) :
    jsLookup (objSet o k v) k = some v := by
  induction o with
  | nil => simp [objSet, jsLookup]
  | cons p rest ih =>
    by_cases hp : p.1 == k
    · simp [objSet, jsLookup, hp]
    · simp [objSet, jsLookup, hp, ih]

theorem objSet_lookup_ne (o : List (String × String)) {k k' : String} (v : String)
    (h : k' ≠ k) : jsLookup (objSet o k v) k' = jsLookup o k' := by
  have hkk : ¬(k == k') := fun hb => h (eq_of_beq hb).symm
  induction o with
  | nil => simp [objSet, jsLookup, hkk]
  | cons p rest ih =>
    by_cases hp : p.1 == k
    · have hpk : p.1 = k := eq_of_beq hp
      have hp' : ¬(p.1 == k') := fun hb => h (by rw [← eq_of_beq hb, hpk])
      simp [objSet, jsLookup, hp, hkk, hp']
    · simp [objSet, jsLookup, hp, ih]

theorem jsLookup_eq_none_of_not_key {o : List (String × String)} {k : String}
    (h : k ∉ o.map Prod.fst) : jsLookup o k = none := by
  induction o with
  | nil => rfl
  | cons p rest ih =>
    simp only [List.map_cons, List.mem_cons] at h
    push_neg at h
    have hp : ¬(p.1 == k) := fun hb => h.1 (eq_of_beq hb).symm
    simp [jsLookup, hp, ih h.2]

theorem objSpread_lookup (upd : List (String × String)) :
    ∀ (base : List (String × String)), (upd.map Prod.fst).Nodup →
    ∀ k, jsLookup (objSpread base upd) k = orO (jsLookup upd k) (jsLookup base k) := by
  induction upd with
  | nil => intro base _ k; simp [objSpread, jsLookup, orO]
  | cons c cs ih =>
    intro base hnodup k
    simp only [List.map_cons, List.nodup_cons] at hnodup
    have hstep : objSpread base (c :: cs) = objSpread (objSet base c.1 c.2) cs := by
      simp [objSpread]
    rw [hstep, ih (objSet base c.1 c.2) hnodup.2 k]
    by_cases hk : c.1 == k
    · have hkk : c.1 = k := eq_of_beq hk
      subst hkk
      rw [jsLookup_eq_none_of_not_key hnodup.1]
      simp [jsLookup, orO, objSet_lookup_self]
    · have hne : k ≠ c.1 := fun hkk => hk (by simp [hkk])
      rw [objSet_lookup_ne base c.2 hne]
      simp [jsLookup, hk]

/-! ## Cloud sync (`syncWeightsToCloud` / `loadWeightsFromCloud`,
`part_001` lines 35–137)

The remote endpoint's behaviour is an input: a response is either a thrown
network error or a body together with the outcome of `JSON.parse` /
`response.json()` on it (`none` when parsing throws).  The
`loggedUser` localStorage key gates both functions. -/

/-- The fields of a parsed JSON reply that the module reads
(`result.status`, `result.weights`; `result.message` is only logged). -/
structure CloudJson where
  status : Option String
  weights : Option (List (String × String))
deriving DecidableEq

/-- Outcome of `fetch` + `response.json()` in `loadWeightsFromCloud`:
either of them throwing lands in the single `catch`. -/
inductive LoadResponse where
  | netError : LoadResponse
  | json (result : CloudJson) : LoadResponse
deriving DecidableEq

/-- `loadWeightsFromCloud()`: not logged in → `null`; fetch/parse throw →
`null`; a parsed reply with `status === 'success'` and a (truthy) `weights`
object merges cloud over local (`\x7b ...localWeights, ...result.weights \x7d`),
persists the merge, and returns it; any other reply → `null`. -/
def loadWeightsFromCloud (loggedUser : Option String) (resp : LoadResponse)
    (s : Store) : Option (List (String × String)) × Store :=
  match loggedUser with
  | none => (none, s)
  | some _ =>
    match resp with
    | .netError => (none, s)
    | .json result =>
      match result.weights with
      | none => (none, s)
      | some cloudWeights =>
        if result.status == some "success" then
          let merged := objSpread s.weights cloudWeights
          (some merged, { s with weights := merged })
        else (none, s)

/-- C7: a `loadWeightsFromCloud` call whose response parses as JSON with
status "success" and a weights map returns the key-wise union of the local
and cloud weights in which the cloud value wins on every conflicting key,
and persists exactly that map locally. -/
theorem loadWeights_cloud_wins_merge (email : String)
    (cw : List (String × String)) (s : Store)
    (hnodup : (cw.map Prod.fst).Nodup) :
    (loadWeightsFromCloud (some email) (.json ⟨some "success", some cw⟩) s).1 =
        some (objSpread s.weights cw) ∧
    (loadWeightsFromCloud (some email) (.json ⟨some "success", some cw⟩) s).2.weights =
        objSpread s.weights cw ∧
    ∀ k, jsLookup (objSpread s.weights cw) k =
        orO (jsLookup cw k) (jsLookup s.weights k) :=
  ⟨rfl, rfl, objSpread_lookup cw s.weights hnodup⟩

/-- Witness for C7: the claim's own example — cloud Squat ↦ 100kg over
local Bench ↦ 80kg yields Bench ↦ 80kg, Squat ↦ 100kg, persisted and
returned. -/
theorem loadWeights_cloud_wins_merge_witness :
    (loadWeightsFromCloud (some "user@example.com")
        (.json ⟨some "success", some [("Squat", "100kg")]⟩)
        (Store.mk [] [] [("Bench", "80kg")] none)).1
      = some [("Bench", "80kg"), ("Squat", "100kg")] :=
  ((loadWeights_cloud_wins_merge "user@example.com" [("Squat", "100kg")]
      (Store.mk [] [] [("Bench", "80kg")] none) (by decide)).1).trans (by decide)

/-- Outcome of the `saveWeights` request in `syncWeightsToCloud`: a thrown
network error, or an HTTP status with the body text and the outcome of
`JSON.parse(text)` (`none` when parsing throws).  The URL construction and
its 2000-character length warning are console-only and do not affect the
returned value. -/
inductive SyncResponse where
  | netError : SyncResponse
  | httpResp (status : Nat) (body : String) (parsed : Option CloudJson) : SyncResponse
deriving DecidableEq

/-- `syncWeightsToCloud(weights)` (source `part_001` lines 35–101): not
logged in → `false`; network error → `false`; non-2xx (`!response.ok`) →
`false`; parsed JSON with `status === 'success'` → record the sync
timestamp and return `true`, other parsed JSON → `false`; unparseable body
→ `true` (recording the timestamp) when the body contains `'success'` or
`response.ok` holds — and `response.ok` always holds on this path, since a
non-ok response already returned `false` above. -/
def syncWeightsToCloud (loggedUser : Option String) (resp : SyncResponse)
    (nowIso : String) (s : Store) : Bool × Store :=
  match loggedUser with
  | none => (false, s)
  | some _ =>
    match resp with
    | .netError => (false, s)
    | .httpResp status body parsed =>
      if ¬(200 ≤ status ∧ status < 300) then (false, s)
      else
        match parsed with
        | some result =>
          if result.status == some "success" then
            (true, { s with weightsSynced := some nowIso })
          else (false, s)
        | none =>
          if jsIncludes body "success" = true ∨ (200 ≤ status ∧ status < 300) then
            (true, { s with weightsSynced := some nowIso })
          else (false, s)

/-- Counterexample for C1: a logged-in call whose response is HTTP 200 with
the body "Internal Server Error" — not valid JSON (`parsed = none`) and
with no success indication (it does not even contain the substring
"success") — returns `true`, not `false` as the claim states: the fallback
branch tests `text.includes('success') || response.ok`, and `response.ok`
is always true once the non-ok early return has been passed. -/
theorem sync_unparseable_2xx_not_false :
    (syncWeightsToCloud (some "user@example.com")
        (.httpResp 200 "Internal Server Error" none) "2026-01-01T00:00:00Z"
        emptyStore).1 = true ∧
    jsIncludes "Internal Server Error" "success" = false := by
  exact ⟨rfl, by decide⟩

/-- C1 (amended): a `syncWeightsToCloud` call with a 2xx response whose
body cannot be parsed as JSON returns `true` and records the sync
timestamp, whatever the body says — the code treats every 2xx response
with an unparseable body as a successful sync. -/
theorem sync_unparseable_2xx_returns_true (email body nowIso : String)
    (status : Nat) (s : Store) (h2xx : 200 ≤ status ∧ status < 300) :
    syncWeightsToCloud (some email) (.httpResp status body none) nowIso s
      = (true, { s with weightsSynced := some nowIso }) := by
  simp only [syncWeightsToCloud]
  rw [if_neg (not_not_intro h2xx)]
  exact if_pos (Or.inr h2xx)

/-- Witness for C1's amended theorem: HTTP 204 with the unparseable body
"ok" (which does not contain "success") still reports a successful sync. -/
theorem sync_unparseable_2xx_returns_true_witness :
    (200 ≤ 204 ∧ 204 < 300) ∧
    syncWeightsToCloud (some "user@example.com") (.httpResp 204 "ok" none) "t"
        emptyStore
      = (true, { emptyStore with weightsSynced := some "t" }) :=
  ⟨by decide,
   sync_unparseable_2xx_returns_true "user@example.com" "ok" "t" 204 emptyStore
     (by decide)⟩

/-! ## AJAX navigation (`navigateAjax`, `src/js/ajax-navigation.js` 151–200)

The browser environment enters as function parameters: `resolve` is the
anchor-element URL resolution of `resolveUrl`, `parse` is
`parsePageContent` (built on `DOMParser`, which never throws on malformed
HTML), and `fetchEnv` gives the outcome of `fetch` + `response.text()` for
a URL — a thrown network error or a status with the body text. -/

/-- What `parsePageContent` extracts from a fetched document. -/
structure PageContent where
  title : String
  body : String
  bodyClasses : String
  scripts : List String
  externalScripts : List String
deriving DecidableEq

/-- Outcome of `fetch(absoluteUrl, ...)` followed by `response.text()`. -/
inductive FetchResult where
  | err : FetchResult
  | ok (status : Nat) (html : String) : FetchResult
deriving DecidableEq

/-- The browser state `navigateAjax` reads and writes: the module-scoped
`isNavigating` lock, the swapped document fields, the history stack
(`pushState` entries, newest first, tagged with the `ajaxNav` marker),
`window.location.href`, plus two observation logs — the URLs passed to
`fetch` and the inline scripts re-executed by `executeScripts`. -/
structure BrowserState where
  isNavigating : Bool
  docTitle : String
  docBody : String
  docBodyClass : String
  history : List (Bool × String × String)
  locationHref : String
  fetchLog : List String
  scriptsRun : List String
deriving DecidableEq

/-- `navigateAjax(href, pushState)`: dropped immediately while the lock is
held; otherwise takes the lock, fetches the resolved URL, and on a 2xx
response swaps title/body/body-class, pushes a tagged history entry when
`pushState` holds, and replays the inline scripts; a network error or
non-2xx status (`if (!response.ok) throw`) lands in the `catch`, which
falls back to `window.location.href = href`.  The `finally` releases the
lock on every path.  (The dispatched synthetic lifecycle events and the
scroll reset of `reinitializeApp` are effect-free on this state.) -/
def navigateAjax (resolve : String → String) (parse : String → PageContent)
    (fetchEnv : String → FetchResult) (pushState : Bool) (href : String)
    (s : BrowserState) : BrowserState :=
  if s.isNavigating then s
  else
    let absoluteUrl := resolve href
    let s1 := { s with isNavigating := true, fetchLog := absoluteUrl :: s.fetchLog }
    match fetchEnv absoluteUrl with
    | .err => { s1 with locationHref := href, isNavigating := false }
    | .ok status html =>
      if 200 ≤ status ∧ status < 300 then
        let pc := parse html
        let s2 := { s1 with docTitle := pc.title, docBody := pc.body,
                            docBodyClass := pc.bodyClasses }
        let s3 := if pushState
          then { s2 with history := (true, pc.title, absoluteUrl) :: s2.history }
          else s2
        { s3 with scriptsRun := s3.scriptsRun ++ pc.scripts, isNavigating := false }
      else { s1 with locationHref := href, isNavigating := false }

theorem navigateAjax_locked (resolve : String → String)
    (parse : String → PageContent) (fetchEnv : String → FetchResult)
    (pushState : Bool) (href : String) (s : BrowserState)
    (h : s.isNavigating = true) :
    navigateAjax resolve parse fetchEnv pushState href s = s := by
  simp [navigateAjax, h]

theorem navigateAjax_run (resolve : String → String)
    (parse : String → PageContent) (fetchEnv : String → FetchResult)
    (pushState : Bool) (href : String) (s : BrowserState)
    (h : s.isNavigating = false) :
    (navigateAjax resolve parse fetchEnv pushState href s).isNavigating = false ∧
    (navigateAjax resolve parse fetchEnv pushState href s).fetchLog =
      resolve href :: s.fetchLog := by
  simp only [navigateAjax, h, Bool.false_eq_true, if_false]
  cases hf : fetchEnv (resolve href) with
  | err => simp
  | ok status html =>
    by_cases h2 : 200 ≤ status ∧ status < 300
    · by_cases hp : pushState <;> simp [h2, hp]
    · simp [h2]

/-- C2: the navigation lock admits at most one in-flight AJAX navigation —
a `navigateAjax` call made while the lock is held returns with the browser
state untouched (no fetch, no content swap, no history change); a run
started with the lock free always ends with the lock released; and hence a
subsequent call proceeds normally (both runs perform their fetch). -/
theorem navigateAjax_single_flight (resolve : String → String)
    (parse : String → PageContent) (fetchEnv : String → FetchResult)
    (pushState : Bool) :
    (∀ (href : String) (s : BrowserState), s.isNavigating = true →
       navigateAjax resolve parse fetchEnv pushState href s = s) ∧
    (∀ (href : String) (s : BrowserState), s.isNavigating = false →
       (navigateAjax resolve parse fetchEnv pushState href s).isNavigating = false) ∧
    (∀ (href1 href2 : String) (s : BrowserState), s.isNavigating = false →
       (navigateAjax resolve parse fetchEnv pushState href2
          (navigateAjax resolve parse fetchEnv pushState href1 s)).fetchLog =
         resolve href2 :: resolve href1 :: s.fetchLog) := by
  refine ⟨navigateAjax_locked resolve parse fetchEnv pushState,
    fun href s h => (navigateAjax_run resolve parse fetchEnv pushState href s h).1,
    fun href1 href2 s h => ?_⟩
  have h1 := navigateAjax_run resolve parse fetchEnv pushState href1 s h
  have h2 := navigateAjax_run resolve parse fetchEnv pushState href2 _ h1.1
  rw [h2.2, h1.2]

/-- Shared concrete parse function for witnesses: every body parses to an
empty document. -/
def noParse : String → PageContent := fun _ => ⟨"", "", "", [], []⟩

/-- Shared concrete browser state for witnesses: lock free. -/
def sBase : BrowserState := ⟨false, "T", "B", "C", [], "/pages/profile.html", [], []⟩

/-- Shared concrete browser state for witnesses: lock held. -/
def sLocked : BrowserState := ⟨true, "T", "B", "C", [], "/pages/profile.html", [], []⟩

/-- Witness for C2: with a network-failing environment, a call on the
locked state is dropped unchanged and a call on the free state ends with
the lock released. -/
theorem navigateAjax_single_flight_witness :
    navigateAjax id noParse (fun _ => FetchResult.err) true "/index.html" sLocked
      = sLocked ∧
    (navigateAjax id noParse (fun _ => FetchResult.err) true "/index.html"
        sBase).isNavigating = false :=
  ⟨(navigateAjax_single_flight id noParse (fun _ => FetchResult.err) true).1
      "/index.html" sLocked rfl,
   (navigateAjax_single_flight id noParse (fun _ => FetchResult.err) true).2.1
      "/index.html" sBase rfl⟩

/-- C4: when the fetch throws or the response status is not 2xx, the AJAX
attempt is abandoned — the document fields, history and script log are
untouched — the browser location is set to the original href, and the
navigation lock is released. -/
theorem navigateAjax_failure_fallback (resolve : String → String)
    (parse : String → PageContent) (fetchEnv : String → FetchResult)
    (pushState : Bool) (href : String) (s : BrowserState)
    (hidle : s.isNavigating = false)
    (hfail : fetchEnv (resolve href) = FetchResult.err ∨
      ∃ status html, fetchEnv (resolve href) = FetchResult.ok status html ∧
        ¬(200 ≤ status ∧ status < 300)) :
    (navigateAjax resolve parse fetchEnv pushState href s).locationHref = href ∧
    (navigateAjax resolve parse fetchEnv pushState href s).isNavigating = false ∧
    (navigateAjax resolve parse fetchEnv pushState href s).docTitle = s.docTitle ∧
    (navigateAjax resolve parse fetchEnv pushState href s).docBody = s.docBody ∧
    (navigateAjax resolve parse fetchEnv pushState href s).docBodyClass =
      s.docBodyClass ∧
    (navigateAjax resolve parse fetchEnv pushState href s).history = s.history ∧
    (navigateAjax resolve parse fetchEnv pushState href s).scriptsRun =
      s.scriptsRun := by
  simp only [navigateAjax, hidle, Bool.false_eq_true, if_false]
  rcases hfail with hf | ⟨status, html, hf, h2⟩
  · rw [hf]
    simp
  · rw [hf]
    simp [h2]

/-- Witness for C4: an HTTP 404 response makes the run fall back to a full
navigation to the original href with the lock released. -/
theorem navigateAjax_failure_fallback_witness :
    (navigateAjax id noParse (fun _ => FetchResult.ok 404 "") true "/index.html"
        sBase).locationHref = "/index.html" ∧
    (navigateAjax id noParse (fun _ => FetchResult.ok 404 "") true "/index.html"
        sBase).isNavigating = false :=
  have h := navigateAjax_failure_fallback id noParse (fun _ => FetchResult.ok 404 "")
    true "/index.html" sBase rfl (Or.inr ⟨404, "", rfl, by decide⟩)
  ⟨h.1, h.2.1⟩

/-! ## AJAX eligibility (`shouldUseAjax`, `src/js/ajax-navigation.js` 47–77) -/

/-- The fixed allow-list of internal app pages (`AJAX_PAGES`,
`ajax-navigation.js` lines 17–42), verbatim and in source order. -/
def AJAX_PAGES : List String :=
  ["/index.html",
   "/pages/dashboard.html",
   "/pages/workout.html",
   "/pages/nutrition.html",
   "/pages/profile.html",
   "/pages/workout-completion.html",
   "index.html",
   "pages/dashboard.html",
   "pages/workout.html",
   "pages/nutrition.html",
   "pages/profile.html",
   "pages/workout-completion.html",
   "dashboard.html",
   "workout.html",
   "nutrition.html",
   "profile.html",
   "workout-completion.html",
   "../index.html",
   "/",
   "./",
   "../"]

/-- The auth-related query markers the eligibility test screens for
(`ajax-navigation.js` lines 64–70), in source order. -/
def authMarkers : List String :=
  ["access_token", "refresh_token", "type=", "token_hash", "code="]

/-- `shouldUseAjax(href)` with the ambient `window.location.origin` and
`window.location.host` made explicit parameters: empty href → `false`;
href starting with `http` whose text does not contain the host → `false`;
anchor / `javascript:` / `mailto:` / `tel:` schemes → `false`; a href
containing `?` together with any auth marker anywhere in its text →
`false`; otherwise the href with the first occurrence of the origin
removed (`href.replace(origin, '')`) must equal or end with an allow-list
entry. -/
def shouldUseAjax (origin host href : String) : Bool :=
  if href == "" then false
  else if jsStartsWith href "http" && !(jsIncludes href host) then false
  else if jsStartsWith href "#" || jsStartsWith href "javascript:" ||
      jsStartsWith href "mailto:" || jsStartsWith href "tel:" then false
  else if jsIncludes href "?" &&
      (jsIncludes href "access_token" || jsIncludes href "refresh_token" ||
       jsIncludes href "type=" || jsIncludes href "token_hash" ||
       jsIncludes href "code=") then false
  else
    let normalizedHref := jsReplaceFirst href origin
    AJAX_PAGES.any fun page =>
      jsEndsWith normalizedHref page || normalizedHref == page

/-- The spec's normalization, in the spec's own words: the href with the
current origin stripped when it is a leading segment.  To be compared with
the source's `href.replace(origin, '')`, which removes the first
occurrence wherever it is. -/
def stripOrigin (origin href : String) : String :=
  if jsStartsWith href origin then ⟨href.data.drop origin.data.length⟩ else href

theorem startsWithL_nil (s : List Char) : startsWithL s [] = true := by
  cases s <;> rfl

theorem replaceFirstL_of_startsWithL {s pat : List Char}
    (h : startsWithL s pat = true) : replaceFirstL s pat = s.drop pat.length := by
  cases pat with
  | nil => cases s <;> rfl
  | cons p ps =>
    cases s with
    | nil => simp [startsWithL] at h
    | cons c rest => simp [replaceFirstL, h]

theorem startsWithL_contains {s pat : List Char} (h : startsWithL s pat = true) :
    containsSub s pat = true := by
  cases s with
  | nil =>
    cases pat with
    | nil => rfl
    | cons p ps => simp [startsWithL] at h
  | cons c rest => simp [containsSub, h]

theorem replaceFirstL_of_not_contains {s pat : List Char}
    (h : containsSub s pat = false) : replaceFirstL s pat = s := by
  cases pat with
  | nil => cases s <;> simp_all [containsSub, startsWithL, replaceFirstL]
  | cons p ps =>
    induction s with
    | nil => rfl
    | cons c rest ih =>
      simp only [containsSub, Bool.or_eq_false_iff] at h
      simp only [containsSub, Bool.or_eq_false_iff] at ih
      simp [replaceFirstL, h.1, ih h.2]

theorem jsReplaceFirst_eq_stripOrigin {origin href : String}
    (h : jsStartsWith href origin = true ∨ jsIncludes href origin = false) :
    jsReplaceFirst href origin = stripOrigin origin href := by
  rcases h with h | h
  · unfold jsReplaceFirst stripOrigin
    rw [if_pos h]
    exact congrArg String.mk (replaceFirstL_of_startsWithL h)
  · have h' : containsSub href.data origin.data = false := h
    have hsw : startsWithL href.data origin.data = false := by
      cases hc : startsWithL href.data origin.data
      · rfl
      · rw [startsWithL_contains hc] at h'
        exact absurd h' (by simp)
    unfold jsReplaceFirst stripOrigin jsStartsWith
    rw [if_neg (by simp [hsw]), replaceFirstL_of_not_contains h']

theorem stripOrigin_empty (origin : String) : stripOrigin origin "" = "" := by
  unfold stripOrigin
  split
  · exact congrArg String.mk (by simp [show ("" : String).data = [] from rfl])
  · rfl

theorem jsEndsWith_empty {page : String} (h : page ≠ "") :
    jsEndsWith "" page = false := by
  unfold jsEndsWith
  have hd : page.data ≠ [] := by
    intro hnil
    apply h
    cases page
    simp at hnil
    simp [hnil]
  cases htr : page.data.reverse with
  | nil => exact absurd (by simpa using htr) hd
  | cons d ds => rfl

theorem afterChar_decomp {l : List Char} {c : Char} {t : List Char}
    (h : afterChar l c = some t) : ∃ pre, l = pre ++ c :: t := by
  induction l with
  | nil => simp [afterChar] at h
  | cons x rest ih =>
    by_cases hx : x == c
    · simp only [afterChar, hx, if_true, Option.some.injEq] at h
      subst h
      exact ⟨[], by simp [eq_of_beq hx]⟩
    · simp only [afterChar, hx, if_false] at h
      obtain ⟨pre, hpre⟩ := ih h
      exact ⟨x :: pre, by simp [hpre]⟩

theorem containsSub_cons {rest pat : List Char} (c : Char)
    (h : containsSub rest pat = true) : containsSub (c :: rest) pat = true := by
  simp [containsSub, h]

theorem containsSub_append_left (xs : List Char) {t pat : List Char}
    (h : containsSub t pat = true) : containsSub (xs ++ t) pat = true := by
  induction xs with
  | nil => exact h
  | cons x xs ih => exact containsSub_cons x ih

theorem containsSub_cons_self (c : Char) (t : List Char) :
    containsSub (c :: t) [c] = true := by
  simp [containsSub, startsWithL, startsWithL_nil]

/-- C3: for every href whose origin-stripped form exactly equals or ends
with an entry of the fixed internal-page allow-list — provided the current
origin occurs in the href only as a leading segment, which is what
"stripping the current origin prefix" presupposes about the source's
`href.replace(origin, '')` — that does not start with an excluded scheme
(`http` to a foreign host, `#`, `javascript:`, `mailto:`, `tel:`) and does
not combine a `?` with an auth marker, `shouldUseAjax` returns `true`; and
for every href whose query string (the part after the first `?`) contains
an auth marker, `shouldUseAjax` returns `false` regardless of path. -/
theorem shouldUseAjax_allowlist_auth :
    (∀ origin host href : String,
       (jsStartsWith href origin = true ∨ jsIncludes href origin = false) →
       (∃ page ∈ AJAX_PAGES,
          stripOrigin origin href = page ∨
          jsEndsWith (stripOrigin origin href) page = true) →
       ¬(jsStartsWith href "http" = true ∧ jsIncludes href host = false) →
       jsStartsWith href "#" = false →
       jsStartsWith href "javascript:" = false →
       jsStartsWith href "mailto:" = false →
       jsStartsWith href "tel:" = false →
       ¬(jsIncludes href "?" = true ∧ ∃ m ∈ authMarkers, jsIncludes href m = true) →
       shouldUseAjax origin host href = true) ∧
    (∀ origin host href q : String,
       queryPart href = some q →
       (∃ m ∈ authMarkers, jsIncludes q m = true) →
       shouldUseAjax origin host href = false) := by
  constructor
  · intro origin host href hOrig hMatch hExt h1 h2 h3 h4 hAuth
    obtain ⟨page, hmem, hcase⟩ := hMatch
    have c1 : (href == "") = false := by
      cases hb : href == ""
      · rfl
      · exfalso
        have he : href = "" := eq_of_beq hb
        subst he
        rw [stripOrigin_empty] at hcase
        have hpage : page ≠ "" := by
          have hall : ∀ p ∈ AJAX_PAGES, p ≠ "" := by decide
          exact hall page hmem
        rcases hcase with hcase | hcase
        · exact hpage hcase.symm
        · rw [jsEndsWith_empty hpage] at hcase
          exact absurd hcase (by simp)
    have c2 : (jsStartsWith href "http" && !(jsIncludes href host)) = false := by
      cases ha : jsStartsWith href "http" <;> cases hb : jsIncludes href host <;>
        simp_all
    have c3 : (jsStartsWith href "#" || jsStartsWith href "javascript:" ||
        jsStartsWith href "mailto:" || jsStartsWith href "tel:") = false := by
      simp [h1, h2, h3, h4]
    have c4 : (jsIncludes href "?" &&
        (jsIncludes href "access_token" || jsIncludes href "refresh_token" ||
         jsIncludes href "type=" || jsIncludes href "token_hash" ||
         jsIncludes href "code=")) = false := by
      rcases Bool.dichotomy (jsIncludes href "?" &&
          (jsIncludes href "access_token" || jsIncludes href "refresh_token" ||
           jsIncludes href "type=" || jsIncludes href "token_hash" ||
           jsIncludes href "code=")) with hc | hc
      · exact hc
      · exfalso
        rw [Bool.and_eq_true] at hc
        obtain ⟨hq, hor⟩ := hc
        apply hAuth
        refine ⟨hq, ?_⟩
        simp only [Bool.or_eq_true] at hor
        rcases hor with (((hm | hm) | hm) | hm) | hm
        · exact ⟨"access_token", by decide, hm⟩
        · exact ⟨"refresh_token", by decide, hm⟩
        · exact ⟨"type=", by decide, hm⟩
        · exact ⟨"token_hash", by decide, hm⟩
        · exact ⟨"code=", by decide, hm⟩
    simp only [shouldUseAjax, c1, c2, c3, c4, Bool.false_eq_true, if_false]
    rw [jsReplaceFirst_eq_stripOrigin hOrig, List.any_eq_true]
    refine ⟨page, hmem, ?_⟩
    rcases hcase with hcase | hcase
    · simp [hcase]
    · simp [hcase]
  · intro origin host href q hq hm
    obtain ⟨m, hmem, hincl⟩ := hm
    obtain ⟨t, hat, hts⟩ : ∃ t, afterChar href.data '?' = some t ∧ String.mk t = q := by
      unfold queryPart at hq
      cases ha : afterChar href.data '?' with
      | none => rw [ha] at hq; simp at hq
      | some t =>
        rw [ha] at hq
        simp only [Option.map_some'] at hq
        exact ⟨t, rfl, Option.some_inj.mp hq⟩
    subst hts
    obtain ⟨pre, hpre⟩ := afterChar_decomp hat
    have hq' : jsIncludes href "?" = true := by
      unfold jsIncludes
      rw [show ("?" : String).data = ['?'] from rfl, hpre]
      exact containsSub_append_left pre (containsSub_cons_self '?' t)
    have hhm : jsIncludes href m = true := by
      unfold jsIncludes
      rw [hpre]
      exact containsSub_append_left pre (containsSub_cons '?' hincl)
    unfold shouldUseAjax
    split_ifs with i1 i2 i3 i4
    · rfl
    · rfl
    · rfl
    · rfl
    · exfalso
      apply i4
      rw [Bool.and_eq_true]
      refine ⟨hq', ?_⟩
      simp only [Bool.or_eq_true]
      have hm5 : m = "access_token" ∨ m = "refresh_token" ∨ m = "type=" ∨
          m = "token_hash" ∨ m = "code=" := by
        simpa [authMarkers] using hmem
      rcases hm5 with rfl | rfl | rfl | rfl | rfl
      · exact Or.inl (Or.inl (Or.inl (Or.inl hhm)))
      · exact Or.inl (Or.inl (Or.inl (Or.inr hhm)))
      · exact Or.inl (Or.inl (Or.inr hhm))
      · exact Or.inl (Or.inr hhm)
      · exact Or.inr hhm

/-- Witness for C3: an absolute internal page URL of the current origin is
eligible; the same origin's dashboard link carrying an `access_token`
query is refused. -/
theorem shouldUseAjax_allowlist_auth_witness :
    shouldUseAjax "https://app.example.com" "app.example.com"
        "https://app.example.com/pages/workout.html" = true ∧
    shouldUseAjax "https://app.example.com" "app.example.com"
        "/pages/dashboard.html?access_token=abc" = false :=
  ⟨shouldUseAjax_allowlist_auth.1 "https://app.example.com" "app.example.com"
      "https://app.example.com/pages/workout.html" (Or.inl (by decide))
      ⟨"/pages/workout.html", by decide, Or.inl (by decide)⟩
      (by decide) (by decide) (by decide) (by decide) (by decide) (by decide),
   shouldUseAjax_allowlist_auth.2 "https://app.example.com" "app.example.com"
      "/pages/dashboard.html?access_token=abc" "access_token=abc" (by decide)
      ⟨"access_token", by decide, by decide⟩⟩

/-! ## Instant-navigation overlay click interceptor
(`src/unnamed/part_000`, lines 56–83)

The listener is registered with `capture: true, passive: true`; a passive
listener cannot call `preventDefault`, and the handler body never does, so
the prevented-default observation is constantly `false`. -/

/-- The data of the clicked anchor the handler reads: `getAttribute('href')`
(`none` when the attribute is absent), the `target` property, and whether a
`download` attribute is present. -/
structure Anchor where
  href : Option String
  target : String
  download : Bool
deriving DecidableEq

/-- `window.showNavOverlay()`: adds the `active` class (idempotent). -/
def showNavOverlay (_active : Bool) : Bool := true

/-- The overlay click handler: `e.target.closest('a')` as an optional
anchor; no anchor, no href, empty href, `http`/`#`/`javascript:` hrefs,
`target === '_blank'`, or a `download` attribute → return without touching
the overlay; otherwise call `showNavOverlay` and let native navigation
proceed.  Result: (overlay active, show-overlay called, default
prevented). -/
def overlayClickHandler (link : Option Anchor) (overlayActive : Bool) :
    Bool × Bool × Bool :=
  match link with
  | none => (overlayActive, false, false)
  | some l =>
    match l.href with
    | none => (overlayActive, false, false)
    | some h =>
      if h == "" || jsStartsWith h "http" || jsStartsWith h "#" ||
          jsStartsWith h "javascript:" || l.target == "_blank" || l.download then
        (overlayActive, false, false)
      else (showNavOverlay overlayActive, true, false)

/-- The claim's classification, in the claim's words: the anchor has a
(truthy, i.e. non-empty) href attribute not starting with `http`, `#` or
`javascript:`, its target is not `_blank`, and it has no download
attribute. -/
def specEligibleAnchor (l : Anchor) : Bool :=
  match l.href with
  | none => false
  | some h =>
    !(h == "") && !(jsStartsWith h "http") && !(jsStartsWith h "#") &&
    !(jsStartsWith h "javascript:") && !(l.target == "_blank") && !l.download

/-- C9: on an anchor click the overlay is marked active exactly when the
anchor is internal in the claim's sense; the handler never prevents the
default navigation; and on every non-eligible anchor the overlay state is
left unchanged. -/
theorem overlay_click_classification (l : Anchor) (active : Bool) :
    ((overlayClickHandler (some l) active).2.1 = specEligibleAnchor l) ∧
    ((overlayClickHandler (some l) active).2.2 = false) ∧
    (specEligibleAnchor l = true → (overlayClickHandler (some l) active).1 = true) ∧
    (specEligibleAnchor l = false → (overlayClickHandler (some l) active).1 = active) := by
  cases hh : l.href with
  | none => simp [overlayClickHandler, specEligibleAnchor, hh]
  | some h =>
    rcases Bool.dichotomy (h == "" || jsStartsWith h "http" || jsStartsWith h "#" ||
        jsStartsWith h "javascript:" || l.target == "_blank" || l.download) with hc | hc
    · simp only [Bool.or_eq_false_iff] at hc
      obtain ⟨⟨⟨⟨⟨h1, h2⟩, h3⟩, h4⟩, h5⟩, h6⟩ := hc
      have hspec : specEligibleAnchor l = true := by
        simp [specEligibleAnchor, hh, h1, h2, h3, h4, h5, h6]
      simp [overlayClickHandler, hh, h1, h2, h3, h4, h5, h6, hspec, showNavOverlay]
    · have hspec : specEligibleAnchor l = false := by
        simp only [Bool.or_eq_true] at hc
        rcases hc with ((((h1 | h1) | h1) | h1) | h1) | h1 <;>
          simp [specEligibleAnchor, hh, h1]
      simp [overlayClickHandler, hh, hc, hspec]

/-- A relative internal link: eligible for the overlay. -/
def anchorInternal : Anchor := ⟨some "pages/workout.html", "", false⟩

/-- An in-page anchor link: ignored by the overlay handler. -/
def anchorHash : Anchor := ⟨some "#top", "", false⟩

/-- Witness for C9: an internal link activates the overlay, an in-page
anchor leaves it inactive. -/
theorem overlay_click_classification_witness :
    (overlayClickHandler (some anchorInternal) false).1 = true ∧
    (overlayClickHandler (some anchorHash) false).1 = false :=
  ⟨(overlay_click_classification anchorInternal false).2.2.1 (by decide),
   (overlay_click_classification anchorHash false).2.2.2 (by decide)⟩

end Viltrum
